import Mathlib

/-!
Verification development for the SEARCH/REPLACE patch engine.

Text is modelled as `List Char`.  The JavaScript string operations that the
source relies on (`String.prototype.replace` with a string pattern and a
string replacement including its `$`-substitution patterns, `includes`,
`trim`, `split`, `startsWith`, the regex `/\s+/g → ' '` collapse) are embedded
explicitly below, and the Node filesystem is modelled as an association list
of file paths to contents together with a list of directories.
-/

/-- ASCII whitespace as matched by the source's `/\s+/` regex and `trim`
(non-ASCII whitespace never occurs in the inputs considered here). -/
def isWsChar (c : Char) : Bool :=
  c = ' ' || c = '\t' || c = '\n' || c = '\r' || c = '\x0b' || c = '\x0c'

/-- `String.prototype.trim`. -/
def trimWs (l : List Char) : List Char :=
  ((l.dropWhile isWsChar).reverse.dropWhile isWsChar).reverse

/-- Helper for the `/\s+/g → ' '` replacement: the boolean records whether the
previous character was whitespace (in which case the run was already
collapsed). -/
def collapseWsAux : Bool → List Char → List Char
  | _, [] => []
  | prevWs, c :: rest =>
    if isWsChar c then
      if prevWs then collapseWsAux true rest
      else ' ' :: collapseWsAux true rest
    else c :: collapseWsAux false rest

/-- `s.replace(/\s+/g, ' ')`: collapse every run of whitespace to one space. -/
def collapseWs (l : List Char) : List Char := collapseWsAux false l

/-- `s.replace(/\s+/g, ' ').trim()` as computed by `findAndReplaceInFile`. -/
def wsNormalize (l : List Char) : List Char := trimWs (collapseWs l)

/-- Index of the first occurrence of `needle` in `hay` (JS `indexOf`
semantics; the empty needle matches at position 0). -/
def firstMatchIdx (needle : List Char) : List Char → Option Nat
  | [] => if needle.isPrefixOf [] then some 0 else none
  | c :: t =>
    if needle.isPrefixOf (c :: t) then some 0
    else (firstMatchIdx needle t).map (· + 1)

/-- JS `hay.includes(needle)`. -/
def containsSub (hay needle : List Char) : Bool := (firstMatchIdx needle hay).isSome

/-- The `$`-substitution that JS applies to a string replacement argument when
the pattern is a plain string (no capture groups): `$$` is a dollar sign,
`$&` the matched text, a dollar followed by a backquote the text before the
match, a dollar followed by a quote the text after the match; any other
dollar is literal. -/
def getSubstitution (matched before after : List Char) : List Char → List Char
  | [] => []
  | c :: rest =>
    if c = '$' then
      match rest with
      | [] => ['$']
      | d :: rest2 =>
        if d = '$' then '$' :: getSubstitution matched before after rest2
        else if d = '&' then matched ++ getSubstitution matched before after rest2
        else if d = Char.ofNat 96 then before ++ getSubstitution matched before after rest2
        else if d = Char.ofNat 39 then after ++ getSubstitution matched before after rest2
        else '$' :: getSubstitution matched before after (d :: rest2)
    else c :: getSubstitution matched before after rest

/-- JS `hay.replace(needle, template)` with a string pattern: rewrite the
first occurrence only, applying `getSubstitution` to the replacement. -/
def jsReplace (hay needle template : List Char) : List Char :=
  match firstMatchIdx needle hay with
  | none => hay
  | some i =>
    hay.take i ++
      getSubstitution needle (hay.take i) (hay.drop (i + needle.length)) template ++
      hay.drop (i + needle.length)

/-- JS `s.split(sep)` for a single-character separator. -/
def splitOnSep (sep : Char) : List Char → List (List Char)
  | [] => [[]]
  | c :: rest =>
    let r := splitOnSep sep rest
    if c = sep then [] :: r
    else
      match r with
      | h :: t => (c :: h) :: t
      | [] => [[c]]

/-- `lines.join('\n')`. -/
def joinLines : List (List Char) → List Char
  | [] => []
  | [x] => x
  | x :: y :: t => x ++ '\n' :: joinLines (y :: t)

/-- `segments.join('/')`, used for directory paths. -/
def joinSegs : List (List Char) → List Char
  | [] => []
  | [x] => x
  | x :: y :: t => x ++ '/' :: joinSegs (y :: t)

/-- Decimal digits of a natural number, for the `Block ${n}` labels. -/
def natChars (n : Nat) : List Char := (Nat.repr n).data

theorem splitOnSep_ne_nil (sep : Char) (l : List Char) : splitOnSep sep l ≠ [] := by
  cases l with
  | nil => simp [splitOnSep]
  | cons c rest =>
    simp only [splitOnSep]
    split
    · simp
    · split <;> simp

theorem joinSegs_cons (h : List Char) (t : List (List Char)) (ht : t ≠ []) :
    joinSegs (h :: t) = h ++ '/' :: joinSegs t := by
  cases t with
  | nil => exact absurd rfl ht
  | cons y ys => rfl

/-- `joinSegs` is a left inverse of splitting on `'/'`. -/
theorem joinSegs_splitOnSep (l : List Char) : joinSegs (splitOnSep '/' l) = l := by
  induction l with
  | nil => rfl
  | cons c rest ih =>
    by_cases hc : c = '/'
    · subst hc
      have h1 : splitOnSep '/' ('/' :: rest) = [] :: splitOnSep '/' rest := by
        simp [splitOnSep]
      rw [h1, joinSegs_cons _ _ (splitOnSep_ne_nil _ _), ih]
      rfl
    · have h1 : splitOnSep '/' (c :: rest) =
          match splitOnSep '/' rest with
          | h :: t => (c :: h) :: t
          | [] => [[c]] := by
        simp [splitOnSep, hc]
      cases hr : splitOnSep '/' rest with
      | nil => exact absurd hr (splitOnSep_ne_nil _ _)
      | cons h t =>
        rw [hr] at h1
        rw [h1]
        rw [hr] at ih
        cases t with
        | nil =>
          have hh : h = rest := by simpa [joinSegs] using ih
          simp [joinSegs, hh]
        | cons y ys =>
          rw [joinSegs_cons (c :: h) (y :: ys) (by simp)]
          rw [joinSegs_cons h (y :: ys) (by simp)] at ih
          rw [List.cons_append, ih]

/-!
## Filesystem model

Files are an association list from full path to content (first binding wins,
as `readFileSync` sees one file per path); directories are a list of paths.
`existsSync` is true for a path that is a file or a directory.
-/

structure FS where
  files : List (List Char × List Char)
  dirs : List (List Char)
deriving DecidableEq, Repr

def lookupFile (fs : FS) (p : List Char) : Option (List Char) :=
  match fs.files.find? (fun kv => kv.1 = p) with
  | some kv => some kv.2
  | none => none

def existsPath (fs : FS) (p : List Char) : Bool :=
  (lookupFile fs p).isSome || decide (p ∈ fs.dirs)

/-- `fs.writeFileSync`: overwrite the first binding for the path, or append a
new one. -/
def writeFileList (files : List (List Char × List Char)) (p c : List Char) :
    List (List Char × List Char) :=
  match files with
  | [] => [(p, c)]
  | kv :: rest =>
    if kv.1 = p then (p, c) :: rest else kv :: writeFileList rest p c

def writeFile (fs : FS) (p c : List Char) : FS :=
  { fs with files := writeFileList fs.files p c }

/-- `fs.unlinkSync`: remove the first binding for the path (the source would
throw if the file were missing; phase 1 checks rule that case out). -/
def removeFile (fs : FS) (p : List Char) : FS :=
  { fs with files := fs.files.eraseP (fun kv => kv.1 = p) }

/-- `path.join(a, b)`: a separator between the two parts.  The claims settled
below do not depend on segment normalization, so none is modelled. -/
def joinPath (a b : List Char) : List Char := a ++ '/' :: b

/-- `path.dirname`: the part before the last separator (`"."` when the path
has no separator, as in Node for a bare relative name). -/
def dirname (q : List Char) : List Char :=
  match q.reverse.dropWhile (fun c => !(c = '/')) with
  | [] => ['.']
  | _ :: rest => rest.reverse

/-- The directory together with all its ancestors, innermost last: the set of
directories `fs.mkdirSync(d, recursive)` guarantees to exist afterwards. -/
def ancestorDirs (d : List Char) : List (List Char) :=
  let segs := splitOnSep '/' d
  (List.range segs.length).map (fun k => joinSegs (segs.take (k + 1)))

def insertUnique (l : List (List Char)) (x : List Char) : List (List Char) :=
  if l.contains x then l else l ++ [x]

/-- `fs.mkdirSync(d, { recursive: true })` on the directory list. -/
def mkdirRec (d : List Char) (dirs : List (List Char)) : List (List Char) :=
  (ancestorDirs d).foldl insertUnique dirs

theorem mem_insertUnique {l : List (List Char)} {x y : List Char} :
    y ∈ insertUnique l x ↔ y ∈ l ∨ y = x := by
  unfold insertUnique
  split
  · next h =>
    constructor
    · exact fun hy => Or.inl hy
    · rintro (hy | rfl)
      · exact hy
      · simpa using h
  · simp

theorem mem_foldl_insertUnique {l : List (List Char)} :
    ∀ {acc : List (List Char)} {y : List Char},
      y ∈ l.foldl insertUnique acc ↔ y ∈ acc ∨ y ∈ l := by
  induction l with
  | nil => simp
  | cons x t ih =>
    intro acc y
    simp only [List.foldl_cons]
    rw [ih, mem_insertUnique]
    simp only [List.mem_cons]
    tauto

/-- Every path added by a recursive mkdir is a prefix of the directory being
created (so in particular no longer than it). -/
theorem joinSegs_take_append (segs : List (List Char)) (k : Nat) :
    ∃ t, joinSegs (segs.take (k + 1)) ++ t = joinSegs segs := by
  induction segs generalizing k with
  | nil => exact ⟨[], rfl⟩
  | cons x t ih =>
    cases t with
    | nil => exact ⟨[], by simp⟩
    | cons y ys =>
      cases k with
      | zero =>
        refine ⟨'/' :: joinSegs (y :: ys), ?_⟩
        simp [joinSegs]
      | succ k =>
        obtain ⟨tl, htl⟩ := ih (k := k)
        refine ⟨tl, ?_⟩
        have hcons : (y :: ys).take (k + 1) ≠ [] := by simp
        rw [List.take_succ_cons, joinSegs_cons x _ hcons,
          joinSegs_cons x (y :: ys) (by simp)]
        simp only [List.cons_append, List.append_assoc] at htl ⊢
        rw [htl]

theorem length_le_of_mem_ancestorDirs {d a : List Char} (h : a ∈ ancestorDirs d) :
    a.length ≤ d.length := by
  unfold ancestorDirs at h
  simp only [List.mem_map, List.mem_range] at h
  obtain ⟨k, _, rfl⟩ := h
  obtain ⟨t, ht⟩ := joinSegs_take_append (splitOnSep '/' d) k
  have := congrArg List.length ht
  rw [joinSegs_splitOnSep] at this
  simp only [List.length_append] at this
  omega

theorem length_dropWhile_le_len (p : Char → Bool) (l : List Char) :
    (l.dropWhile p).length ≤ l.length := by
  induction l with
  | nil => simp [List.dropWhile]
  | cons c t ih =>
    simp only [List.dropWhile]
    split
    · simp only [List.length_cons]
      omega
    · simp

theorem dirname_length_lt {q : List Char} (h : '/' ∈ q) :
    (dirname q).length < q.length := by
  unfold dirname
  have hne : q.reverse.dropWhile (fun c => !(c = '/')) ≠ [] := by
    intro hnil
    rw [List.dropWhile_eq_nil_iff] at hnil
    have := hnil '/' (by simpa using h)
    simp at this
  cases hd : q.reverse.dropWhile (fun c => !(c = '/')) with
  | nil => exact absurd hd hne
  | cons c rest =>
    have hlen : (c :: rest).length ≤ q.reverse.length := by
      rw [← hd]; exact length_dropWhile_le_len _ _
    simp only [List.length_cons, List.length_reverse] at hlen
    simp only [List.length_reverse]
    omega

/-- A recursive mkdir of the parent directory of `p` never adds `p` itself,
so existence of `p` is unchanged. -/
theorem existsPath_mkdir_parent (fs : FS) (p : List Char) (h : '/' ∈ p) :
    existsPath { fs with dirs := mkdirRec (dirname p) fs.dirs } p = existsPath fs p := by
  unfold existsPath lookupFile
  simp only
  congr 1
  rw [decide_eq_decide]
  simp only [mkdirRec]
  rw [mem_foldl_insertUnique]
  constructor
  · rintro (hp | hp)
    · exact hp
    · exfalso
      have hle := length_le_of_mem_ancestorDirs hp
      have hlt := dirname_length_lt h
      omega
  · exact Or.inl

/-!
## Parser (`src/lib/parser.ts`)
-/

/-- `SearchReplaceBlock` from `src/lib/types.ts`.  `lineNumber` is declared
optional there, but the parser always sets it, so it is a plain `Nat` here. -/
structure SearchReplaceBlock where
  language : List Char
  filePath : List Char
  searchContent : List Char
  replaceContent : List Char
  isNewFile : Bool
  lineNumber : Nat
deriving DecidableEq, Repr

/-- `findMarkerIndex`: first line index `≥ start` whose trimmed content is
exactly the marker (`none` for the source's `-1`). -/
def findMarkerIndex (lines : List (List Char)) (marker : List Char) (start : Nat) :
    Option Nat :=
  match lines with
  | [] => none
  | l :: rest =>
    if start = 0 then
      if trimWs l = marker then some 0
      else (findMarkerIndex rest marker 0).map (· + 1)
    else (findMarkerIndex rest marker (start - 1)).map (· + 1)

def searchMarker : List Char := "<<<<<<< SEARCH".data
def dividerMarker : List Char := "=======".data
def replaceEndMarker : List Char := ">>>>>>> REPLACE".data

/-- `extractBlockContent`: locate the three markers in order and cut the
search/replace bodies out of the fence body. -/
def extractBlockContent (blockContent language filePath : List Char)
    (blockIndex : Nat) : Option SearchReplaceBlock :=
  let lines := splitOnSep '\n' blockContent
  let searchStart? := findMarkerIndex lines searchMarker 0
  let searchNext := match searchStart? with | none => 0 | some i => i + 1
  let divider? := findMarkerIndex lines dividerMarker searchNext
  let dividerNext := match divider? with | none => 0 | some i => i + 1
  let replaceEnd? := findMarkerIndex lines replaceEndMarker dividerNext
  match searchStart?, divider?, replaceEnd? with
  | some s, some d, some r =>
    let searchContent := joinLines ((lines.take d).drop (s + 1))
    let replaceContent := joinLines ((lines.take r).drop (d + 1))
    some
      { language := language
        filePath := filePath
        searchContent := searchContent
        replaceContent := replaceContent
        isNewFile := (trimWs searchContent).isEmpty
        lineNumber := blockIndex }
  | _, _, _ => none

/-- The heuristic `prevLine.includes('.') || prevLine.includes('/') ||
prevLine.includes('\\')`. -/
def pathLike (l : List Char) : Bool :=
  l.contains '.' || l.contains '/' || l.contains '\\'

/-- The backward scan at a fence opener: walk the earlier lines (nearest
first), stop at the first one that is non-blank after trimming, and yield it
as the candidate path if it looks like one. -/
def backScanPath (prev : List (List Char)) : Option (List Char) :=
  match prev with
  | [] => none
  | l :: rest =>
    let t := trimWs l
    if t.isEmpty then backScanPath rest
    else if pathLike t then some t
    else none

/-- The mutable locals of the `parseSearchReplaceBlocks` line loop. -/
structure PState where
  currentFilePath : Option (List Char)
  inFence : Bool
  fenceLines : List (List Char)
  fenceLanguage : List Char
  blockIndex : Nat
  blocks : List SearchReplaceBlock
deriving DecidableEq, Repr

def initialPState : PState :=
  { currentFilePath := none
    inFence := false
    fenceLines := []
    fenceLanguage := []
    blockIndex := 0
    blocks := [] }

def fenceMarker : List Char := "```".data

/-- The fence-close step of the parser loop: decide the file path (internal
first line, else the remembered candidate), run marker extraction, and update
the counters. -/
def closeFence (st : PState) : PState :=
  let inner :=
    match st.fenceLines with
    | [] => none
    | l0 :: t =>
      let f := trimWs l0
      if !f.isEmpty && !(searchMarker.isPrefixOf f) then some (f, t) else none
  let fpAndBody :=
    match inner with
    | some (f, t) => (some f, joinLines t)
    | none => (st.currentFilePath, joinLines st.fenceLines)
  match fpAndBody.1 with
  | some p =>
    if p.isEmpty then { st with inFence := false, fenceLines := [] }
    else
      let bi := st.blockIndex + 1
      let blocks' :=
        match extractBlockContent fpAndBody.2 st.fenceLanguage p bi with
        | some b => st.blocks ++ [b]
        | none => st.blocks
      { st with inFence := false, fenceLines := [], blockIndex := bi,
                blocks := blocks' }
  | none => { st with inFence := false, fenceLines := [] }

/-- One pass of the parser loop; `prev` holds the already-consumed lines in
reverse order (for the backward path scan). -/
def parseLoop : List (List Char) → List (List Char) → PState → PState
  | [], _, st => st
  | line :: rest, prev, st =>
    if fenceMarker.isPrefixOf line then
      if st.inFence then
        parseLoop rest (line :: prev) (closeFence st)
      else
        let fp :=
          match backScanPath prev with
          | some p => some p
          | none => st.currentFilePath
        parseLoop rest (line :: prev)
          { st with inFence := true, fenceLanguage := trimWs (line.drop 3),
                    currentFilePath := fp }
    else
      if st.inFence then
        parseLoop rest (line :: prev) { st with fenceLines := st.fenceLines ++ [line] }
      else
        parseLoop rest (line :: prev) st

def xmlOpenTag : List Char := "<search_replace_blocks>".data
def xmlCloseTag : List Char := "</search_replace_blocks>".data

/-- The `<search_replace_blocks>` narrowing: the source's lazy regex takes the
text between the first opening tag and the first closing tag after it. -/
def xmlNarrow (content : List Char) : List Char :=
  match firstMatchIdx xmlOpenTag content with
  | none => content
  | some i =>
    let rest := content.drop (i + xmlOpenTag.length)
    match firstMatchIdx xmlCloseTag rest with
    | none => content
    | some j => rest.take j

/-- `parseSearchReplaceBlocks` from `src/lib/parser.ts`. -/
def parseSearchReplaceBlocks (content : List Char) : List SearchReplaceBlock :=
  if content.isEmpty then []
  else
    (parseLoop (splitOnSep '\n' (xmlNarrow content)) [] initialPState).blocks

/-- `ValidationOutcome`. -/
structure ValidationOutcome where
  valid : Bool
  errors : List (List Char)
deriving DecidableEq, Repr

def isAbsolutePath (p : List Char) : Bool :=
  match p with
  | c :: _ => c = '/'
  | [] => false

/-- `validateSearchReplaceBlock` from `src/lib/parser.ts`. -/
def validateSearchReplaceBlock (block : SearchReplaceBlock) : ValidationOutcome :=
  let e1 : List (List Char) :=
    if (trimWs block.filePath).isEmpty then ["File path is empty or missing".data] else []
  let e2 : List (List Char) :=
    if containsSub block.filePath ("..".data) || isAbsolutePath block.filePath then
      ["File path contains invalid characters or is absolute".data]
    else []
  let e3 : List (List Char) :=
    if !block.isNewFile && (trimWs block.searchContent).isEmpty then
      ["Search content is empty for existing file modification".data]
    else []
  let e4 : List (List Char) :=
    if (trimWs block.language).isEmpty then
      ["Programming language not specified in fenced block".data]
    else []
  let errors := e1 ++ e2 ++ e3 ++ e4
  { valid := errors.isEmpty, errors := errors }

/-!
## Applicator (`src/lib/applicator.ts`)
-/

structure ApplyResult where
  success : Bool
  message : List Char
  filesProcessed : Nat
  blocksProcessed : Nat
  errors : List (List Char)
  warnings : List (List Char)
deriving DecidableEq, Repr

def joinWith (sep : List Char) : List (List Char) → List Char
  | [] => []
  | [x] => x
  | x :: y :: t => x ++ sep ++ joinWith sep (y :: t)

def whitespaceWarning : List Char :=
  ("A similar block of text was found, but it differs by whitespace (spaces, tabs, or newlines). The SEARCH block must be an exact match.").data

/-- `findAndReplaceInFile`: read the file, rewrite the first occurrence via
JS `replace`, detect failure by content equality, and attach the whitespace
near-miss warning when the normalized search text occurs in the normalized
file content.  (A directory sitting at the file path is not modelled; the
existence check is file presence.) -/
def findAndReplaceInFile (fs : FS) (filePath searchContent replaceContent : List Char) :
    ApplyResult × FS :=
  match lookupFile fs filePath with
  | none =>
    ({ success := false, message := ("File not found").data,
       filesProcessed := 0, blocksProcessed := 0,
       errors := [("The specified file does not exist.").data], warnings := [] }, fs)
  | some currentContent =>
    let newContent := jsReplace currentContent searchContent replaceContent
    if newContent = currentContent then
      let currentTrimmed := wsNormalize currentContent
      let searchTrimmed := wsNormalize searchContent
      let warnings :=
        if containsSub currentTrimmed searchTrimmed then [whitespaceWarning] else []
      ({ success := false, message := ("Search content not found").data,
         filesProcessed := 0, blocksProcessed := 0,
         errors := [("The content in the SEARCH block did not exactly match any part of the file.").data],
         warnings := warnings }, fs)
    else
      ({ success := true, message := ("Successfully modified file").data,
         filesProcessed := 0, blocksProcessed := 0, errors := [], warnings := [] },
       writeFile fs filePath newContent)

/-- `createNewFile`: ensure the parent directory (this mutation persists even
when the subsequent existence check throws), then fail if anything already
exists at the path, else write the content.  `none` in the first component
means success; `some e` is the thrown error message. -/
def createNewFile (fs : FS) (filePath content : List Char) :
    Option (List Char) × FS :=
  let dir := dirname filePath
  let fs1 := if existsPath fs dir then fs else { fs with dirs := mkdirRec dir fs.dirs }
  if existsPath fs1 filePath then (some ("File already exists").data, fs1)
  else (none, writeFile fs1 filePath content)

/-- `applySearchReplaceBlock` (single block). -/
def applySearchReplaceBlock (block : SearchReplaceBlock) (workspacePath : List Char)
    (fs : FS) : ApplyResult × FS :=
  let fullPath := joinPath workspacePath block.filePath
  if block.isNewFile then
    let cr := createNewFile fs fullPath block.replaceContent
    match cr.1 with
    | none =>
      ({ success := true, message := ("Created new file: ").data ++ block.filePath,
         filesProcessed := 1, blocksProcessed := 1, errors := [], warnings := [] }, cr.2)
    | some e =>
      ({ success := false, message := ("Failed to apply block: ").data ++ e,
         filesProcessed := 0, blocksProcessed := 0, errors := [e], warnings := [] }, cr.2)
  else
    let pr := findAndReplaceInFile fs fullPath block.searchContent block.replaceContent
    ({ pr.1 with
        filesProcessed := if pr.1.success then 1 else 0,
        blocksProcessed := if pr.1.success then 1 else 0 }, pr.2)

/-- The `Block ${n} (${path}): ` prefix used for aggregated errors/warnings. -/
def blockLabel (block : SearchReplaceBlock) : List Char :=
  ("Block ").data ++ natChars block.lineNumber ++ (" (").data ++ block.filePath ++
    ("): ").data

/-- The mutable locals of the `applySearchReplaceBlocks` loop. -/
structure LoopAcc where
  errors : List (List Char)
  warnings : List (List Char)
  processedFiles : List (List Char)
  successfulBlocks : Nat
  fs : FS
deriving DecidableEq, Repr

/-- The body of the `for (const block of blocks)` loop. -/
def processBlock (workspacePath : List Char) (acc : LoopAcc)
    (block : SearchReplaceBlock) : LoopAcc :=
  let v := validateSearchReplaceBlock block
  if !v.valid then
    { acc with
        errors := acc.errors ++
          [blockLabel block ++ ("Invalid format - ").data ++ joinWith (", ").data v.errors] }
  else
    let pr := applySearchReplaceBlock block workspacePath acc.fs
    if pr.1.success then
      { acc with
          successfulBlocks := acc.successfulBlocks + 1,
          processedFiles := insertUnique acc.processedFiles block.filePath,
          warnings := acc.warnings ++ pr.1.warnings.map (fun w => blockLabel block ++ w),
          fs := pr.2 }
    else
      let errorMessage :=
        if pr.1.errors.isEmpty then pr.1.message else joinWith (" ").data pr.1.errors
      { acc with
          errors := acc.errors ++ [blockLabel block ++ errorMessage],
          warnings := acc.warnings ++ pr.1.warnings.map (fun w => blockLabel block ++ w),
          fs := pr.2 }

def processBlocks (workspacePath : List Char) :
    List SearchReplaceBlock → LoopAcc → LoopAcc
  | [], acc => acc
  | b :: rest, acc => processBlocks workspacePath rest (processBlock workspacePath acc b)

/-- `applySearchReplaceBlocks` (the public entry point), returning the
aggregate result together with the final filesystem. -/
def applySearchReplaceBlocks (content workspacePath : List Char) (fs : FS) :
    ApplyResult × FS :=
  let blocks := parseSearchReplaceBlocks content
  if blocks.isEmpty then
    ({ success := false,
       message := ("No valid SEARCH/REPLACE blocks found in the response.").data,
       filesProcessed := 0, blocksProcessed := 0,
       errors := [("Could not find any fenced code blocks with the SEARCH/REPLACE format.").data],
       warnings := [] }, fs)
  else
    let acc := processBlocks workspacePath blocks
      { errors := [], warnings := [], processedFiles := [], successfulBlocks := 0, fs := fs }
    let success := decide (0 < acc.successfulBlocks)
    let message :=
      if success then
        if acc.errors.isEmpty then
          ("Successfully applied ").data ++ natChars acc.successfulBlocks ++
            (" block(s) to ").data ++ natChars acc.processedFiles.length ++ (" file(s).").data
        else
          ("Applied ").data ++ natChars acc.successfulBlocks ++
            (" block(s) to ").data ++ natChars acc.processedFiles.length ++
            (" file(s), but ").data ++ natChars acc.errors.length ++ (" error(s) occurred.").data
      else
        if acc.errors.isEmpty then
          ("Failed to apply any blocks. No valid blocks were processed.").data
        else
          ("Failed to apply any blocks. ").data ++ natChars acc.errors.length ++
            (" error(s) occurred.").data
    ({ success := success, message := message,
       filesProcessed := acc.processedFiles.length,
       blocksProcessed := acc.successfulBlocks,
       errors := acc.errors, warnings := acc.warnings }, acc.fs)

/-- Specification-side per-block outcome list: for each parsed block, whether
it is applied successfully, paired with its file path, threading the
filesystem exactly as the loop does. -/
def blockOutcomes (workspacePath : List Char) :
    List SearchReplaceBlock → FS → List (Bool × List Char)
  | [], _ => []
  | b :: rest, fs =>
    if (validateSearchReplaceBlock b).valid then
      let pr := applySearchReplaceBlock b workspacePath fs
      (pr.1.success, b.filePath) :: blockOutcomes workspacePath rest pr.2
    else
      (false, b.filePath) :: blockOutcomes workspacePath rest fs

/-!
## Git diff pipeline (`src/gitDiffParser.ts`)

The `parse-git-diff` library is an external collaborator; its output is
modelled structurally: a list of file entries, each carrying chunks of
line-level changes.
-/

inductive LineChangeKind where
  | unchangedLine
  | addedLine
  | deletedLine
  | messageLine
deriving DecidableEq, Repr

structure LineChange where
  kind : LineChangeKind
  content : List Char
deriving DecidableEq, Repr

/-- A chunk as consumed by `buildFileContentFromChunks`: either a regular
`Chunk` with the 1-based `fromFileRange.start`, or a `CombinedChunk`
(skipped by the source). -/
inductive DiffChunk where
  | chunk (fromStart : Nat) (changes : List LineChange)
  | combined
deriving DecidableEq, Repr

/-- A parsed diff entry (`AddedFile` / `DeletedFile` / `RenamedFile` /
`ChangedFile`, plus the default branch for unknown types). -/
inductive DiffFile where
  | addedFile (path : List Char) (chunks : List DiffChunk)
  | deletedFile (path : List Char)
  | renamedFile (pathBefore pathAfter : List Char) (chunks : List DiffChunk)
  | changedFile (path : List Char) (chunks : List DiffChunk)
  | unknownFile (typeName : List Char)
deriving DecidableEq, Repr

/-- The `for (const change of chunk.changes)` loop: produce the emitted lines
and the new original-line index. -/
def applyChanges : List LineChange → Nat → List (List Char) × Nat
  | [], idx => ([], idx)
  | ch :: rest, idx =>
    match ch.kind with
    | LineChangeKind.unchangedLine =>
      let r := applyChanges rest (idx + 1)
      (ch.content :: r.1, r.2)
    | LineChangeKind.addedLine =>
      let r := applyChanges rest idx
      (ch.content :: r.1, r.2)
    | LineChangeKind.deletedLine => applyChanges rest (idx + 1)
    | LineChangeKind.messageLine => applyChanges rest idx

/-- The `for (const chunk of chunks)` loop: copy original lines up to each
chunk's 0-based start, then run its changes. -/
def runChunks : List DiffChunk → List (List Char) → Nat → List (List Char) × Nat
  | [], _, idx => ([], idx)
  | DiffChunk.chunk fromStart changes :: rest, orig, idx =>
    let stop := max idx (min (fromStart - 1) orig.length)
    let copied := (orig.take stop).drop idx
    let body := applyChanges changes stop
    let tail := runChunks rest orig body.2
    (copied ++ body.1 ++ tail.1, tail.2)
  | DiffChunk.combined :: rest, orig, idx => runChunks rest orig idx

/-- `buildFileContentFromChunks`. -/
def buildFileContentFromChunks (chunks : List DiffChunk) (originalContent : List Char) :
    List Char :=
  if chunks.isEmpty then originalContent
  else
    let originalLines := if originalContent.isEmpty then [] else splitOnSep '\n' originalContent
    let r := runChunks chunks originalLines 0
    joinLines (r.1 ++ originalLines.drop r.2)

inductive OpType where
  | create
  | modify
  | delete
  | rename
deriving DecidableEq, Repr

structure FileOperation where
  type : OpType
  path : List Char
  pathBefore : Option (List Char)
  content : Option (List Char)
  error : Option (List Char)
deriving DecidableEq, Repr

/-- `handleAddedFile`: existence check, then ensure the parent directory
(which mutates the directory tree), then compute the content. -/
def handleAddedFile (workspacePath : List Char) (path : List Char)
    (chunks : List DiffChunk) (fs : FS) : FileOperation × FS :=
  let fullPath := joinPath workspacePath path
  if existsPath fs fullPath then
    ({ type := OpType.create, path := path, pathBefore := none, content := none,
       error := some (("File already exists: ").data ++ path) }, fs)
  else
    let dir := dirname fullPath
    let fs1 := if existsPath fs dir then fs else { fs with dirs := mkdirRec dir fs.dirs }
    ({ type := OpType.create, path := path, pathBefore := none,
       content := some (buildFileContentFromChunks chunks []), error := none }, fs1)

def handleDeletedFile (workspacePath : List Char) (path : List Char) (fs : FS) :
    FileOperation × FS :=
  let fullPath := joinPath workspacePath path
  if !existsPath fs fullPath then
    ({ type := OpType.delete, path := path, pathBefore := none, content := none,
       error := some (("File does not exist: ").data ++ path) }, fs)
  else
    ({ type := OpType.delete, path := path, pathBefore := none, content := none,
       error := none }, fs)

def handleRenamedFile (workspacePath : List Char) (pathBefore pathAfter : List Char)
    (chunks : List DiffChunk) (fs : FS) : FileOperation × FS :=
  let oldPath := joinPath workspacePath pathBefore
  let newPath := joinPath workspacePath pathAfter
  if !existsPath fs oldPath then
    ({ type := OpType.rename, path := pathAfter, pathBefore := some pathBefore,
       content := none, error := some (("Source file does not exist: ").data ++ pathBefore) },
     fs)
  else if existsPath fs newPath then
    ({ type := OpType.rename, path := pathAfter, pathBefore := some pathBefore,
       content := none,
       error := some (("Destination file already exists: ").data ++ pathAfter) }, fs)
  else
    let dir := dirname newPath
    let fs1 := if existsPath fs dir then fs else { fs with dirs := mkdirRec dir fs.dirs }
    if chunks.isEmpty then
      ({ type := OpType.rename, path := pathAfter, pathBefore := some pathBefore,
         content := none, error := none }, fs1)
    else
      let originalContent := (lookupFile fs oldPath).getD []
      ({ type := OpType.rename, path := pathAfter, pathBefore := some pathBefore,
         content := some (buildFileContentFromChunks chunks originalContent),
         error := none }, fs1)

def handleChangedFile (workspacePath : List Char) (path : List Char)
    (chunks : List DiffChunk) (fs : FS) : FileOperation × FS :=
  let fullPath := joinPath workspacePath path
  if !existsPath fs fullPath then
    ({ type := OpType.modify, path := path, pathBefore := none, content := none,
       error := some (("File does not exist: ").data ++ path) }, fs)
  else
    let originalContent := (lookupFile fs fullPath).getD []
    ({ type := OpType.modify, path := path, pathBefore := none,
       content := some (buildFileContentFromChunks chunks originalContent),
       error := none }, fs)

/-- `processFile`: dispatch on the entry type. -/
def processFile (workspacePath : List Char) (file : DiffFile) (fs : FS) :
    FileOperation × FS :=
  match file with
  | DiffFile.addedFile path chunks => handleAddedFile workspacePath path chunks fs
  | DiffFile.deletedFile path => handleDeletedFile workspacePath path fs
  | DiffFile.renamedFile pb pa chunks => handleRenamedFile workspacePath pb pa chunks fs
  | DiffFile.changedFile path chunks => handleChangedFile workspacePath path chunks fs
  | DiffFile.unknownFile t =>
    ({ type := OpType.modify, path := [], pathBefore := none, content := none,
       error := some (("Unsupported file type: ").data ++ t) }, fs)

/-- The first phase of `applyDiff` (lines 57-71): resolve every entry into a
`FileOperation`, counting error-free entries and collecting labeled errors. -/
structure Phase1Out where
  ops : List FileOperation
  fs : FS
  filesProcessed : Nat
  errors : List (List Char)
deriving DecidableEq, Repr

def processAllFiles (workspacePath : List Char) :
    List DiffFile → FS → Phase1Out
  | [], fs => { ops := [], fs := fs, filesProcessed := 0, errors := [] }
  | f :: rest, fs =>
    let pr := processFile workspacePath f fs
    let tail := processAllFiles workspacePath rest pr.2
    match pr.1.error with
    | none =>
      { tail with ops := pr.1 :: tail.ops, filesProcessed := tail.filesProcessed + 1 }
    | some e =>
      { tail with ops := pr.1 :: tail.ops,
                  errors := (pr.1.path ++ (": ").data ++ e) :: tail.errors }

/-- `fs.renameSync` on the model (the source would throw when the source path
is missing; phase 1 rules that out, so that case leaves the state unchanged
here). -/
def renameFsPath (fs : FS) (oldPath newPath : List Char) : FS :=
  match lookupFile fs oldPath with
  | some c => writeFile (removeFile fs oldPath) newPath c
  | none => fs

/-- `applyOperations` (the second, commit pass): operations that carry an
error are skipped. -/
def applyOperations (workspacePath : List Char) :
    List FileOperation → FS → FS
  | [], fs => fs
  | op :: rest, fs =>
    if op.error.isSome then applyOperations workspacePath rest fs
    else
      let fullPath := joinPath workspacePath op.path
      let fs' :=
        match op.type with
        | OpType.create => writeFile fs fullPath (op.content.getD [])
        | OpType.modify => writeFile fs fullPath (op.content.getD [])
        | OpType.delete => removeFile fs fullPath
        | OpType.rename =>
          let oldPath := joinPath workspacePath (op.pathBefore.getD [])
          match op.content with
          | some c => removeFile (writeFile fs fullPath c) oldPath
          | none => renameFsPath fs oldPath fullPath
      applyOperations workspacePath rest fs'

/-!
## Lemmas about the embedded string operations
-/

theorem prefix_decomp {n l : List Char} (h : n.isPrefixOf l = true) :
    l = n ++ l.drop n.length := by
  induction n generalizing l with
  | nil => simp
  | cons a n' ih =>
    cases l with
    | nil => simp [List.isPrefixOf] at h
    | cons b t =>
      simp only [List.isPrefixOf, Bool.and_eq_true, beq_iff_eq] at h
      obtain ⟨rfl, h2⟩ := h
      have := ih h2
      simp only [List.length_cons, List.drop_succ_cons]
      exact congrArg (a :: ·) this

theorem firstMatchIdx_prefixOf {n h : List Char} {i : Nat}
    (hf : firstMatchIdx n h = some i) : n.isPrefixOf (h.drop i) = true := by
  induction h generalizing i with
  | nil =>
    simp only [firstMatchIdx] at hf
    split at hf
    · next hp =>
      cases hf
      simpa using hp
    · cases hf
  | cons c t ih =>
    simp only [firstMatchIdx] at hf
    split at hf
    · next hp =>
      cases hf
      simpa using hp
    · next hp =>
      simp only [Option.map_eq_some'] at hf
      obtain ⟨j, hj, rfl⟩ := hf
      simpa using ih hj

theorem firstMatchIdx_minimal {n h : List Char} {i : Nat}
    (hf : firstMatchIdx n h = some i) :
    ∀ j, j < i → n.isPrefixOf (h.drop j) = false := by
  induction h generalizing i with
  | nil =>
    intro j hj
    simp only [firstMatchIdx] at hf
    split at hf
    · next hp =>
      cases hf
      omega
    · cases hf
  | cons c t ih =>
    intro j hj
    simp only [firstMatchIdx] at hf
    split at hf
    · next hp =>
      cases hf
      omega
    · next hp =>
      simp only [Option.map_eq_some'] at hf
      obtain ⟨j0, hj0, rfl⟩ := hf
      cases j with
      | zero =>
        simp only [List.drop_zero]
        exact Bool.eq_false_iff.mpr hp
      | succ k =>
        have hk : k < j0 := by omega
        simpa using ih hj0 k hk

theorem firstMatchIdx_decomp {n h : List Char} {i : Nat}
    (hf : firstMatchIdx n h = some i) :
    h = h.take i ++ n ++ h.drop (i + n.length) := by
  have hp := firstMatchIdx_prefixOf hf
  have hd := prefix_decomp hp
  conv_lhs => rw [← List.take_append_drop i h]
  rw [List.append_assoc]
  congr 1
  rw [hd]
  congr 1
  rw [List.drop_drop]

theorem getSubstitution_cons_ne_dollar {m b a : List Char} {c : Char}
    {rest : List Char} (hc : ¬(c = '$')) :
    getSubstitution m b a (c :: rest) = c :: getSubstitution m b a rest := by
  rw [getSubstitution.eq_def]
  simp only [if_neg hc]

theorem getSubstitution_no_dollar {m b a : List Char} :
    ∀ {template : List Char}, '$' ∉ template →
      getSubstitution m b a template = template := by
  intro template
  induction template with
  | nil => intro _; rfl
  | cons c rest ih =>
    intro hc
    have hcne : ¬(c = '$') := fun hh => hc (hh ▸ List.mem_cons_self c rest)
    have hrest : '$' ∉ rest := fun hh => hc (List.mem_cons_of_mem c hh)
    rw [getSubstitution_cons_ne_dollar hcne, ih hrest]

theorem jsReplace_eq_of_found {hay n t : List Char} {i : Nat}
    (hf : firstMatchIdx n hay = some i) :
    jsReplace hay n t =
      hay.take i ++ getSubstitution n (hay.take i) (hay.drop (i + n.length)) t ++
        hay.drop (i + n.length) := by
  unfold jsReplace
  rw [hf]

theorem jsReplace_eq_of_not_found {hay n t : List Char}
    (hf : firstMatchIdx n hay = none) : jsReplace hay n t = hay := by
  unfold jsReplace
  rw [hf]

theorem find?_writeFileList_self (p c : List Char) :
    ∀ files : List (List Char × List Char),
      (writeFileList files p c).find? (fun kv => kv.1 = p) = some (p, c) := by
  intro files
  induction files with
  | nil => simp [writeFileList]
  | cons kv rest ih =>
    simp only [writeFileList]
    split
    · next h => simp [List.find?]
    · next h =>
      simp only [List.find?]
      rw [decide_eq_false h]
      exact ih

theorem find?_writeFileList_other (p c q : List Char) (hq : q ≠ p) :
    ∀ files : List (List Char × List Char),
      (writeFileList files p c).find? (fun kv => kv.1 = q) =
        files.find? (fun kv => kv.1 = q) := by
  intro files
  induction files with
  | nil =>
    simp only [writeFileList, List.find?]
    rw [decide_eq_false (fun hh : p = q => hq hh.symm)]
  | cons kv rest ih =>
    simp only [writeFileList]
    split
    · next h =>
      simp only [List.find?]
      rw [decide_eq_false (fun hh : p = q => hq hh.symm),
        decide_eq_false (fun hh : kv.1 = q => hq (hh ▸ h.symm ▸ rfl))]
    · next h =>
      simp only [List.find?]
      cases hkv : decide (kv.1 = q) with
      | true => rfl
      | false => exact ih

theorem lookupFile_writeFile_self (fs : FS) (p c : List Char) :
    lookupFile (writeFile fs p c) p = some c := by
  unfold lookupFile writeFile
  simp only
  rw [find?_writeFileList_self]

theorem lookupFile_writeFile_other (fs : FS) (p c q : List Char) (hq : q ≠ p) :
    lookupFile (writeFile fs p c) q = lookupFile fs q := by
  unfold lookupFile writeFile
  simp only
  rw [find?_writeFileList_other p c q hq]

/-!
## Claim C1
-/

/-- `findAndReplaceInFile` on a file whose content contains the search text,
with a replacement that contains no dollar character and differs from the
search text: the call succeeds and writes the first-occurrence replacement. -/
theorem findAndReplace_found_spec (fs : FS) (p s r cur : List Char) (i : Nat)
    (hlook : lookupFile fs p = some cur)
    (hfind : firstMatchIdx s cur = some i)
    (hdollar : '$' ∉ r)
    (hdiff : r ≠ s) :
    findAndReplaceInFile fs p s r =
      ({ success := true, message := ("Successfully modified file").data,
         filesProcessed := 0, blocksProcessed := 0, errors := [], warnings := [] },
       writeFile fs p (cur.take i ++ r ++ cur.drop (i + s.length))) := by
  have hdecomp := firstMatchIdx_decomp hfind
  have hjs : jsReplace cur s r = cur.take i ++ r ++ cur.drop (i + s.length) := by
    rw [jsReplace_eq_of_found hfind, getSubstitution_no_dollar hdollar]
  have hne2 : ¬(cur.take i ++ r ++ cur.drop (i + s.length) = cur) := by
    intro heq
    apply hdiff
    have hmid : cur.take i ++ r ++ cur.drop (i + s.length) =
        cur.take i ++ s ++ cur.drop (i + s.length) := by
      rw [heq]; exact hdecomp
    exact List.append_cancel_left (List.append_cancel_right hmid)
  simp only [findAndReplaceInFile, hlook, hjs]
  rw [if_neg hne2]

/-- Claim C1, amended: for every valid existing-file block whose non-empty
`searchContent` occurs in the target file, and whose `replaceContent` contains
no dollar character and differs from `searchContent`, applying the block
succeeds and the new file content is the original with exactly the first
occurrence of `searchContent` replaced literally by `replaceContent`; the
text before the match and after it (hence every later occurrence) is
byte-for-byte untouched, no earlier position matches, and no other file
changes.  (The two restrictions are forced by the counterexample: the source
applies the JS `$`-substitution to the replacement, and it reports a
content-preserving replacement as a failed match.) -/
theorem c1_first_occurrence_literal_replace
    (fs : FS) (ws : List Char) (b : SearchReplaceBlock) (cur : List Char) (i : Nat)
    (hvalid : (validateSearchReplaceBlock b).valid = true)
    (hnew : b.isNewFile = false)
    (hlook : lookupFile fs (joinPath ws b.filePath) = some cur)
    (hfind : firstMatchIdx b.searchContent cur = some i)
    (hne : b.searchContent ≠ [])
    (hdollar : '$' ∉ b.replaceContent)
    (hdiff : b.replaceContent ≠ b.searchContent) :
    (applySearchReplaceBlock b ws fs).1.success = true ∧
    lookupFile (applySearchReplaceBlock b ws fs).2 (joinPath ws b.filePath) =
      some (cur.take i ++ b.replaceContent ++ cur.drop (i + b.searchContent.length)) ∧
    cur = cur.take i ++ b.searchContent ++ cur.drop (i + b.searchContent.length) ∧
    (∀ j, j < i → b.searchContent.isPrefixOf (cur.drop j) = false) ∧
    (∀ q, q ≠ joinPath ws b.filePath →
      lookupFile (applySearchReplaceBlock b ws fs).2 q = lookupFile fs q) := by
  have hspec := findAndReplace_found_spec fs (joinPath ws b.filePath) b.searchContent
    b.replaceContent cur i hlook hfind hdollar hdiff
  have happ : applySearchReplaceBlock b ws fs =
      ({ success := true, message := ("Successfully modified file").data,
         filesProcessed := 1, blocksProcessed := 1, errors := [], warnings := [] },
       writeFile fs (joinPath ws b.filePath)
         (cur.take i ++ b.replaceContent ++ cur.drop (i + b.searchContent.length))) := by
    simp only [applySearchReplaceBlock, hnew, Bool.false_eq_true, if_false, hspec]
    rfl
  refine ⟨by rw [happ], ?_, firstMatchIdx_decomp hfind, firstMatchIdx_minimal hfind, ?_⟩
  · rw [happ]
    exact lookupFile_writeFile_self fs _ _
  · intro q hq
    rw [happ]
    exact lookupFile_writeFile_other fs _ _ q hq

def c1Ws : List Char := ("ws").data

def c1Block : SearchReplaceBlock :=
  { language := ("text").data, filePath := ("f.txt").data,
    searchContent := ("aXb").data, replaceContent := ("Y").data,
    isNewFile := false, lineNumber := 1 }

def c1Fs : FS := { files := [(("ws/f.txt").data, ("aXb aXb").data)], dirs := [] }

theorem c1_first_occurrence_literal_replace_witness :
    (applySearchReplaceBlock c1Block c1Ws c1Fs).1.success = true ∧
    lookupFile (applySearchReplaceBlock c1Block c1Ws c1Fs).2 (("ws/f.txt").data) =
      some (("Y aXb").data) := by
  have h := c1_first_occurrence_literal_replace c1Fs c1Ws c1Block (("aXb aXb").data) 0
    (by decide) (by decide) (by decide) (by decide) (by decide) (by decide) (by decide)
  refine ⟨h.1, ?_⟩
  have h2 := h.2.1
  simpa using h2

def c1xBlockDollar : SearchReplaceBlock :=
  { language := ("js").data, filePath := ("f.txt").data,
    searchContent := ("a").data, replaceContent := ("$&b").data,
    isNewFile := false, lineNumber := 1 }

def c1xFsDollar : FS := { files := [(("ws/f.txt").data, ("a").data)], dirs := [] }

def c1xBlockNoop : SearchReplaceBlock :=
  { language := ("js").data, filePath := ("f.txt").data,
    searchContent := ("a").data, replaceContent := ("a").data,
    isNewFile := false, lineNumber := 1 }

def c1xFsNoop : FS := { files := [(("ws/f.txt").data, ("a").data)], dirs := [] }

/-- Claim C1 is false as stated, at two inputs.  First input: a valid block
(search `"a"`, replace `"$&b"`) against a file `"a"` containing the search
text; the source's JS `replace` expands `$&` to the matched text and writes
`"ab"`, not the literal `"$&b"`.  Second input: a valid block with
`replaceContent = searchContent = "a"` against the same file; the search text
occurs, yet the apply call fails (the source detects success by content
change), contradicting "applying the block succeeds". -/
theorem c1_counterexample :
    ((validateSearchReplaceBlock c1xBlockDollar).valid = true ∧
     containsSub (("a").data) c1xBlockDollar.searchContent = true ∧
     (applySearchReplaceBlock c1xBlockDollar c1Ws c1xFsDollar).1.success = true ∧
     lookupFile (applySearchReplaceBlock c1xBlockDollar c1Ws c1xFsDollar).2
       (("ws/f.txt").data) = some (("ab").data) ∧
     (("ab").data : List Char) ≠ ("$&b").data) ∧
    ((validateSearchReplaceBlock c1xBlockNoop).valid = true ∧
     containsSub (("a").data) c1xBlockNoop.searchContent = true ∧
     (applySearchReplaceBlock c1xBlockNoop c1Ws c1xFsNoop).1.success = false) := by
  decide

/-!
## Claim C2
-/

def c2Ws : List Char := ("ws").data

def c2Block : SearchReplaceBlock :=
  { language := ("js").data, filePath := ("f.txt").data,
    searchContent := ("a").data, replaceContent := ("a").data,
    isNewFile := false, lineNumber := 1 }

def c2Fs : FS := { files := [(("ws/f.txt").data, ("a").data)], dirs := [] }

/-- Claim C2 (code bug): a valid block with `searchContent = replaceContent`
whose search text is found in the file is reported as a FAILURE with the
message `Search content not found` (and even a whitespace warning), not as a
successful no-op; the file is left unchanged.  The source detects a failed
match by comparing the rewritten content with the original, which cannot
distinguish "not found" from "found but replacement is identical". -/
theorem c2_noop_replace_reported_as_failure :
    (validateSearchReplaceBlock c2Block).valid = true ∧
    lookupFile c2Fs (("ws/f.txt").data) = some (("a").data) ∧
    containsSub (("a").data) c2Block.searchContent = true ∧
    (applySearchReplaceBlock c2Block c2Ws c2Fs).1.success = false ∧
    (applySearchReplaceBlock c2Block c2Ws c2Fs).1.message =
      ("Search content not found").data ∧
    (applySearchReplaceBlock c2Block c2Ws c2Fs).1.warnings = [whitespaceWarning] ∧
    (applySearchReplaceBlock c2Block c2Ws c2Fs).2 = c2Fs := by
  decide

/-!
## Claim C4
-/

theorem lookupFile_dirs_irrelevant (files : List (List Char × List Char))
    (d1 d2 : List (List Char)) (q : List Char) :
    lookupFile ⟨files, d1⟩ q = lookupFile ⟨files, d2⟩ q := rfl

theorem self_mem_ancestorDirs (d : List Char) : d ∈ ancestorDirs d := by
  unfold ancestorDirs
  simp only [List.mem_map, List.mem_range]
  have hne := splitOnSep_ne_nil '/' d
  have hlen : 0 < (splitOnSep '/' d).length := List.length_pos.mpr hne
  refine ⟨(splitOnSep '/' d).length - 1, by omega, ?_⟩
  have : (splitOnSep '/' d).length - 1 + 1 = (splitOnSep '/' d).length := by omega
  rw [this, List.take_length, joinSegs_splitOnSep]

theorem existsPath_writeFile_true (fs : FS) (p q c : List Char)
    (h : existsPath fs q = true) : existsPath (writeFile fs p c) q = true := by
  unfold existsPath at h ⊢
  simp only [Bool.or_eq_true] at h ⊢
  rcases h with h | h
  · left
    by_cases hpq : q = p
    · subst hpq
      rw [lookupFile_writeFile_self]
      rfl
    · rw [lookupFile_writeFile_other fs p c q hpq]
      exact h
  · right
    exact h

theorem existsPath_mkdir_true (fs : FS) (d q : List Char)
    (h : existsPath fs q = true) :
    existsPath { fs with dirs := mkdirRec d fs.dirs } q = true := by
  unfold existsPath at h ⊢
  simp only [Bool.or_eq_true, decide_eq_true_eq] at h ⊢
  rcases h with h | h
  · exact Or.inl h
  · right
    unfold mkdirRec
    rw [mem_foldl_insertUnique]
    exact Or.inl h

/-- Claim C4: for every valid new-file block, if nothing exists at the
resolved path the block succeeds, the file is created with exactly
`replaceContent`, the parent directory exists afterwards, and no other file
changes; if something already exists there, the block fails with the
`File already exists` error and no file (that one included) is modified. -/
theorem c4_new_file_block
    (fs : FS) (ws : List Char) (b : SearchReplaceBlock)
    (hvalid : (validateSearchReplaceBlock b).valid = true)
    (hnew : b.isNewFile = true) :
    (existsPath fs (joinPath ws b.filePath) = false →
      (applySearchReplaceBlock b ws fs).1.success = true ∧
      lookupFile (applySearchReplaceBlock b ws fs).2 (joinPath ws b.filePath) =
        some b.replaceContent ∧
      existsPath (applySearchReplaceBlock b ws fs).2
        (dirname (joinPath ws b.filePath)) = true ∧
      (∀ q, q ≠ joinPath ws b.filePath →
        lookupFile (applySearchReplaceBlock b ws fs).2 q = lookupFile fs q)) ∧
    (existsPath fs (joinPath ws b.filePath) = true →
      (applySearchReplaceBlock b ws fs).1.success = false ∧
      (applySearchReplaceBlock b ws fs).1.errors = [("File already exists").data] ∧
      ∀ q, lookupFile (applySearchReplaceBlock b ws fs).2 q = lookupFile fs q) := by
  have hslash : '/' ∈ joinPath ws b.filePath := by
    unfold joinPath
    exact List.mem_append.mpr (Or.inr (List.mem_cons_self _ _))
  constructor
  · intro hex
    by_cases hdir : existsPath fs (dirname (joinPath ws b.filePath)) = true
    · have hcr : createNewFile fs (joinPath ws b.filePath) b.replaceContent =
          (none, writeFile fs (joinPath ws b.filePath) b.replaceContent) := by
        unfold createNewFile
        simp only [hdir, if_true, hex, Bool.false_eq_true, if_false]
      have happ : applySearchReplaceBlock b ws fs =
          ({ success := true, message := ("Created new file: ").data ++ b.filePath,
             filesProcessed := 1, blocksProcessed := 1, errors := [], warnings := [] },
           writeFile fs (joinPath ws b.filePath) b.replaceContent) := by
        simp only [applySearchReplaceBlock, hnew, if_true, hcr]
      rw [happ]
      refine ⟨rfl, lookupFile_writeFile_self _ _ _, ?_,
        fun q hq => lookupFile_writeFile_other _ _ _ q hq⟩
      exact existsPath_writeFile_true _ _ _ _ hdir
    · have hdir' : existsPath fs (dirname (joinPath ws b.filePath)) = false := by
        cases hb : existsPath fs (dirname (joinPath ws b.filePath))
        · rfl
        · exact absurd hb hdir
      set fsm : FS :=
        { fs with dirs := mkdirRec (dirname (joinPath ws b.filePath)) fs.dirs } with hfsm
      have hexm : existsPath fsm (joinPath ws b.filePath) = false := by
        rw [hfsm, existsPath_mkdir_parent fs _ hslash]
        exact hex
      have hcr : createNewFile fs (joinPath ws b.filePath) b.replaceContent =
          (none, writeFile fsm (joinPath ws b.filePath) b.replaceContent) := by
        unfold createNewFile
        simp only [hdir', Bool.false_eq_true, if_false, hexm]
      have happ : applySearchReplaceBlock b ws fs =
          ({ success := true, message := ("Created new file: ").data ++ b.filePath,
             filesProcessed := 1, blocksProcessed := 1, errors := [], warnings := [] },
           writeFile fsm (joinPath ws b.filePath) b.replaceContent) := by
        simp only [applySearchReplaceBlock, hnew, if_true, hcr]
      rw [happ]
      refine ⟨rfl, lookupFile_writeFile_self _ _ _, ?_, ?_⟩
      · apply existsPath_writeFile_true
        unfold existsPath
        simp only [Bool.or_eq_true, decide_eq_true_eq]
        right
        show dirname (joinPath ws b.filePath) ∈ mkdirRec _ fs.dirs
        unfold mkdirRec
        rw [mem_foldl_insertUnique]
        exact Or.inr (self_mem_ancestorDirs _)
      · intro q hq
        rw [lookupFile_writeFile_other _ _ _ q hq]
        rfl
  · intro hex
    by_cases hdir : existsPath fs (dirname (joinPath ws b.filePath)) = true
    · have hcr : createNewFile fs (joinPath ws b.filePath) b.replaceContent =
          (some ("File already exists").data, fs) := by
        unfold createNewFile
        simp only [hdir, if_true, hex]
      have happ : applySearchReplaceBlock b ws fs =
          ({ success := false,
             message := ("Failed to apply block: ").data ++ ("File already exists").data,
             filesProcessed := 0, blocksProcessed := 0,
             errors := [("File already exists").data], warnings := [] }, fs) := by
        simp only [applySearchReplaceBlock, hnew, if_true, hcr]
      rw [happ]
      exact ⟨rfl, rfl, fun q => rfl⟩
    · have hdir' : existsPath fs (dirname (joinPath ws b.filePath)) = false := by
        cases hb : existsPath fs (dirname (joinPath ws b.filePath))
        · rfl
        · exact absurd hb hdir
      set fsm : FS :=
        { fs with dirs := mkdirRec (dirname (joinPath ws b.filePath)) fs.dirs } with hfsm
      have hexm : existsPath fsm (joinPath ws b.filePath) = true := by
        rw [hfsm, existsPath_mkdir_parent fs _ hslash]
        exact hex
      have hcr : createNewFile fs (joinPath ws b.filePath) b.replaceContent =
          (some ("File already exists").data, fsm) := by
        unfold createNewFile
        simp only [hdir', Bool.false_eq_true, if_false, hexm, if_true]
      have happ : applySearchReplaceBlock b ws fs =
          ({ success := false,
             message := ("Failed to apply block: ").data ++ ("File already exists").data,
             filesProcessed := 0, blocksProcessed := 0,
             errors := [("File already exists").data], warnings := [] }, fsm) := by
        simp only [applySearchReplaceBlock, hnew, if_true, hcr]
      rw [happ]
      exact ⟨rfl, rfl, fun q => rfl⟩

def c4Block : SearchReplaceBlock :=
  { language := ("js").data, filePath := ("new/app.js").data,
    searchContent := [], replaceContent := ("hello").data,
    isNewFile := true, lineNumber := 1 }

def c4FsEmpty : FS := { files := [], dirs := [("ws").data] }

def c4BlockExisting : SearchReplaceBlock :=
  { language := ("js").data, filePath := ("x.txt").data,
    searchContent := [], replaceContent := ("hello").data,
    isNewFile := true, lineNumber := 1 }

def c4FsExisting : FS := { files := [(("ws/x.txt").data, ("orig").data)], dirs := [("ws").data] }

theorem c4_new_file_block_witness :
    ((applySearchReplaceBlock c4Block (("ws").data) c4FsEmpty).1.success = true ∧
     lookupFile (applySearchReplaceBlock c4Block (("ws").data) c4FsEmpty).2
       (("ws/new/app.js").data) = some (("hello").data)) ∧
    ((applySearchReplaceBlock c4BlockExisting (("ws").data) c4FsExisting).1.success = false ∧
     (applySearchReplaceBlock c4BlockExisting (("ws").data) c4FsExisting).1.errors =
       [("File already exists").data] ∧
     lookupFile (applySearchReplaceBlock c4BlockExisting (("ws").data) c4FsExisting).2
       (("ws/x.txt").data) = some (("orig").data)) := by
  have h1 := c4_new_file_block c4FsEmpty (("ws").data) c4Block (by decide) (by decide)
  have h2 := c4_new_file_block c4FsExisting (("ws").data) c4BlockExisting
    (by decide) (by decide)
  have h1' := h1.1 (by decide)
  have h2' := h2.2 (by decide)
  refine ⟨⟨h1'.1, ?_⟩, h2'.1, h2'.2.1, ?_⟩
  · have := h1'.2.1
    simpa using this
  · rw [h2'.2.2 (("ws/x.txt").data)]
    decide

/-!
## Claim C5
-/

theorem isEmpty_append_middle (l1 l2 l3 : List (List Char)) (m : List Char) :
    (((l1 ++ [m]) ++ l2) ++ l3).isEmpty = false := by
  cases l1 <;> simp

/-- Claim C5: a block whose file path contains `..` or is absolute is rejected
by validation whatever the filesystem state, and the applicator loop skips it:
the filesystem and all counters are untouched and exactly one labeled
`Invalid format` error is appended. -/
theorem c5_path_safety
    (b : SearchReplaceBlock)
    (h : containsSub b.filePath (("..").data) = true ∨ isAbsolutePath b.filePath = true) :
    (validateSearchReplaceBlock b).valid = false ∧
    ∀ ws acc, (processBlock ws acc b).fs = acc.fs ∧
      (processBlock ws acc b).successfulBlocks = acc.successfulBlocks ∧
      (processBlock ws acc b).processedFiles = acc.processedFiles ∧
      (processBlock ws acc b).warnings = acc.warnings ∧
      ∃ e, (processBlock ws acc b).errors =
        acc.errors ++ [blockLabel b ++ ("Invalid format - ").data ++ e] := by
  have hcond : (containsSub b.filePath (("..").data) || isAbsolutePath b.filePath) = true := by
    rcases h with h | h <;> simp [h]
  have hv : (validateSearchReplaceBlock b).valid = false := by
    unfold validateSearchReplaceBlock
    simp only [hcond, if_true]
    exact isEmpty_append_middle _ _ _ _
  refine ⟨hv, fun ws acc => ?_⟩
  have hpb : processBlock ws acc b =
      { acc with errors := acc.errors ++
          [blockLabel b ++ ("Invalid format - ").data ++
            joinWith ((", ").data) (validateSearchReplaceBlock b).errors] } := by
    simp only [processBlock, hv, Bool.not_false, if_true]
  rw [hpb]
  exact ⟨rfl, rfl, rfl, rfl,
    ⟨joinWith ((", ").data) (validateSearchReplaceBlock b).errors, rfl⟩⟩

def c5Block : SearchReplaceBlock :=
  { language := ("js").data, filePath := ("../secret.txt").data,
    searchContent := ("x").data, replaceContent := ("y").data,
    isNewFile := false, lineNumber := 1 }

def c5Acc : LoopAcc :=
  { errors := [], warnings := [], processedFiles := [], successfulBlocks := 0,
    fs := { files := [(("ws/../secret.txt").data, ("x").data)], dirs := [] } }

theorem c5_path_safety_witness :
    (validateSearchReplaceBlock c5Block).valid = false ∧
    (processBlock (("ws").data) c5Acc c5Block).fs = c5Acc.fs ∧
    (processBlock (("ws").data) c5Acc c5Block).successfulBlocks = 0 := by
  have h := c5_path_safety c5Block (Or.inl (by decide))
  exact ⟨h.1, (h.2 (("ws").data) c5Acc).1, (h.2 (("ws").data) c5Acc).2.1⟩

/-!
## Claim C6
-/

/-- Claim C6: when the search text does not occur in the file but its
whitespace-normalized form occurs in the normalized file content, the block
fails with an error, the filesystem is untouched, and the warnings list holds
exactly the warning mentioning whitespace. -/
theorem c6_whitespace_near_miss
    (fs : FS) (p cur s r : List Char)
    (hlook : lookupFile fs p = some cur)
    (hnotfound : containsSub cur s = false)
    (hnorm : containsSub (wsNormalize cur) (wsNormalize s) = true) :
    (findAndReplaceInFile fs p s r).1.success = false ∧
    (findAndReplaceInFile fs p s r).1.errors ≠ [] ∧
    (findAndReplaceInFile fs p s r).1.warnings = [whitespaceWarning] ∧
    containsSub whitespaceWarning (("whitespace").data) = true ∧
    (findAndReplaceInFile fs p s r).2 = fs := by
  have hnone : firstMatchIdx s cur = none := by
    cases hm : firstMatchIdx s cur with
    | none => rfl
    | some i =>
      exfalso
      unfold containsSub at hnotfound
      rw [hm] at hnotfound
      simp at hnotfound
  have hfr : findAndReplaceInFile fs p s r =
      ({ success := false, message := ("Search content not found").data,
         filesProcessed := 0, blocksProcessed := 0,
         errors := [("The content in the SEARCH block did not exactly match any part of the file.").data],
         warnings := [whitespaceWarning] }, fs) := by
    simp only [findAndReplaceInFile, hlook]
    rw [jsReplace_eq_of_not_found hnone]
    rw [if_pos rfl, if_pos hnorm]
  rw [hfr]
  exact ⟨rfl, by simp, rfl, by decide, rfl⟩

def c6Fs : FS :=
  { files := [(("ws/file.js").data, ("if(x)\x7b\n  y();\n\x7d").data)], dirs := [] }

theorem c6_whitespace_near_miss_witness :
    (findAndReplaceInFile c6Fs (("ws/file.js").data) (("if(x)\x7b\n\ty();\n\x7d").data)
      (("if(x)\x7b\n\tz();\n\x7d").data)).1.success = false ∧
    (findAndReplaceInFile c6Fs (("ws/file.js").data) (("if(x)\x7b\n\ty();\n\x7d").data)
      (("if(x)\x7b\n\tz();\n\x7d").data)).1.warnings = [whitespaceWarning] := by
  have h := c6_whitespace_near_miss c6Fs (("ws/file.js").data)
    (("if(x)\x7b\n  y();\n\x7d").data) (("if(x)\x7b\n\ty();\n\x7d").data)
    (("if(x)\x7b\n\tz();\n\x7d").data) (by decide) (by decide) (by decide)
  exact ⟨h.1, h.2.2.1⟩

/-!
## Claim C3
-/

theorem blockOutcomes_length (ws : List Char) :
    ∀ (bs : List SearchReplaceBlock) (fs : FS),
      (blockOutcomes ws bs fs).length = bs.length := by
  intro bs
  induction bs with
  | nil => intro fs; rfl
  | cons b rest ih =>
    intro fs
    simp only [blockOutcomes]
    split
    · simp only [List.length_cons, ih]
    · simp only [List.length_cons, ih]

theorem foldl_insertUnique_toFinset (paths : List (List Char)) :
    ∀ acc : List (List Char),
      (paths.foldl insertUnique acc).toFinset = acc.toFinset ∪ paths.toFinset := by
  induction paths with
  | nil => intro acc; simp
  | cons p ps ih =>
    intro acc
    simp only [List.foldl_cons, ih, List.toFinset_cons]
    unfold insertUnique
    split
    · next hmem =>
      have hp : p ∈ acc.toFinset := by
        rw [List.mem_toFinset]
        simpa using hmem
      rw [Finset.union_insert]
      rw [Finset.insert_eq_self.mpr (Finset.mem_union_left _ hp)]
    · next hmem =>
      rw [Finset.union_insert]
      ext x
      simp only [List.toFinset_append, List.toFinset_cons, List.toFinset_nil,
        Finset.mem_union, Finset.mem_insert]
      tauto

theorem foldl_insertUnique_nodup (paths : List (List Char)) :
    ∀ acc : List (List Char), acc.Nodup → (paths.foldl insertUnique acc).Nodup := by
  induction paths with
  | nil => intro acc h; exact h
  | cons p ps ih =>
    intro acc h
    simp only [List.foldl_cons]
    apply ih
    unfold insertUnique
    split
    · exact h
    · next hmem =>
      rw [List.nodup_append]
      refine ⟨h, List.nodup_singleton p, ?_⟩
      intro x hx hx2
      simp only [List.mem_singleton] at hx2
      subst hx2
      exact hmem (by simpa using hx)

theorem length_foldl_insertUnique_nil (paths : List (List Char)) :
    (paths.foldl insertUnique []).length = paths.toFinset.card := by
  have hnd := foldl_insertUnique_nodup paths [] List.nodup_nil
  have hfs := foldl_insertUnique_toFinset paths []
  rw [← List.toFinset_card_of_nodup hnd, hfs]
  simp

theorem processBlocks_spec (ws : List Char) :
    ∀ (bs : List SearchReplaceBlock) (acc : LoopAcc),
      (processBlocks ws bs acc).successfulBlocks =
        acc.successfulBlocks +
          ((blockOutcomes ws bs acc.fs).filter (fun o => o.1)).length ∧
      (processBlocks ws bs acc).processedFiles =
        (((blockOutcomes ws bs acc.fs).filter (fun o => o.1)).map (fun o => o.2)).foldl
          insertUnique acc.processedFiles := by
  intro bs
  induction bs with
  | nil =>
    intro acc
    simp [processBlocks, blockOutcomes]
  | cons b rest ih =>
    intro acc
    simp only [processBlocks, blockOutcomes]
    by_cases hv : (validateSearchReplaceBlock b).valid = true
    · rw [if_pos hv]
      have hb : (!(validateSearchReplaceBlock b).valid) = false := by rw [hv]; rfl
      by_cases hs : (applySearchReplaceBlock b ws acc.fs).1.success = true
      · have hpb : processBlock ws acc b =
            { acc with
                successfulBlocks := acc.successfulBlocks + 1,
                processedFiles := insertUnique acc.processedFiles b.filePath,
                warnings := acc.warnings ++
                  (applySearchReplaceBlock b ws acc.fs).1.warnings.map
                    (fun w => blockLabel b ++ w),
                fs := (applySearchReplaceBlock b ws acc.fs).2 } := by
          simp only [processBlock, hb, Bool.false_eq_true, if_false, hs, if_true]
        rw [hpb]
        obtain ⟨ih1, ih2⟩ := ih
          { acc with
              successfulBlocks := acc.successfulBlocks + 1,
              processedFiles := insertUnique acc.processedFiles b.filePath,
              warnings := acc.warnings ++
                (applySearchReplaceBlock b ws acc.fs).1.warnings.map
                  (fun w => blockLabel b ++ w),
              fs := (applySearchReplaceBlock b ws acc.fs).2 }
        refine ⟨?_, ?_⟩
        · rw [ih1]
          simp only [hs, List.filter_cons, if_true, List.length_cons]
          omega
        · rw [ih2]
          simp only [hs, List.filter_cons, if_true, List.map_cons,
            List.foldl_cons]
      · have hs' : (applySearchReplaceBlock b ws acc.fs).1.success = false := by
          cases hb2 : (applySearchReplaceBlock b ws acc.fs).1.success
          · rfl
          · exact absurd hb2 hs
        have hpb : processBlock ws acc b =
            { acc with
                errors := acc.errors ++
                  [blockLabel b ++
                    (if (applySearchReplaceBlock b ws acc.fs).1.errors.isEmpty then
                      (applySearchReplaceBlock b ws acc.fs).1.message
                    else
                      joinWith ((" ").data)
                        (applySearchReplaceBlock b ws acc.fs).1.errors)],
                warnings := acc.warnings ++
                  (applySearchReplaceBlock b ws acc.fs).1.warnings.map
                    (fun w => blockLabel b ++ w),
                fs := (applySearchReplaceBlock b ws acc.fs).2 } := by
          simp only [processBlock, hb, Bool.false_eq_true, if_false, hs',
            Bool.false_eq_true, if_false]
        rw [hpb]
        obtain ⟨ih1, ih2⟩ := ih
          { acc with
              errors := acc.errors ++
                [blockLabel b ++
                  (if (applySearchReplaceBlock b ws acc.fs).1.errors.isEmpty then
                    (applySearchReplaceBlock b ws acc.fs).1.message
                  else
                    joinWith ((" ").data)
                      (applySearchReplaceBlock b ws acc.fs).1.errors)],
              warnings := acc.warnings ++
                (applySearchReplaceBlock b ws acc.fs).1.warnings.map
                  (fun w => blockLabel b ++ w),
              fs := (applySearchReplaceBlock b ws acc.fs).2 }
        refine ⟨?_, ?_⟩
        · rw [ih1]
          simp [hs']
        · rw [ih2]
          simp [hs']
    · have hv' : (validateSearchReplaceBlock b).valid = false := by
        cases hb2 : (validateSearchReplaceBlock b).valid
        · rfl
        · exact absurd hb2 hv
      rw [if_neg (by rw [hv']; exact Bool.false_ne_true)]
      have hb : (!(validateSearchReplaceBlock b).valid) = true := by rw [hv']; rfl
      have hpb : processBlock ws acc b =
          { acc with
              errors := acc.errors ++
                [blockLabel b ++ ("Invalid format - ").data ++
                  joinWith ((", ").data) (validateSearchReplaceBlock b).errors] } := by
        simp only [processBlock, hb, if_true]
      rw [hpb]
      obtain ⟨ih1, ih2⟩ := ih
        { acc with
            errors := acc.errors ++
              [blockLabel b ++ ("Invalid format - ").data ++
                joinWith ((", ").data) (validateSearchReplaceBlock b).errors] }
      refine ⟨?_, ?_⟩
      · rw [ih1]
        simp
      · rw [ih2]
        simp

def c3Ws : List Char := ("ws").data

def c3TwoBlockInput : List Char :=
  ("file1.txt\n```text\n<<<<<<< SEARCH\ncontent1\n=======\ncontent2\n>>>>>>> REPLACE\n```\n\nfile2.txt\n```text\n<<<<<<< SEARCH\ndoes not exist\n=======\nwont be applied\n>>>>>>> REPLACE\n```\n").data

def c3Fs : FS := { files := [(("ws/file1.txt").data, ("content1").data)], dirs := [] }

set_option maxRecDepth 100000 in
set_option maxHeartbeats 2000000 in
/-- Claim C3: for every input, the aggregate result's `blocksProcessed` is the
number of per-block successes, `success` is true iff at least one block
succeeded, `filesProcessed` is the number of distinct file paths among
successful blocks, and every parsed block receives an outcome (one block's
failure never stops the loop); moreover, on an input with zero recognizable
blocks the result is failure with zero blocks processed, and on a two-block
input whose second block targets a missing file the result is success with
one block, one file, and exactly one error naming the failing block's path. -/
theorem c3_aggregate_result (content ws : List Char) (fs : FS) :
    ((applySearchReplaceBlocks content ws fs).1.blocksProcessed =
      ((blockOutcomes ws (parseSearchReplaceBlocks content) fs).filter
        (fun o => o.1)).length) ∧
    ((applySearchReplaceBlocks content ws fs).1.success =
      decide (0 < ((blockOutcomes ws (parseSearchReplaceBlocks content) fs).filter
        (fun o => o.1)).length)) ∧
    ((applySearchReplaceBlocks content ws fs).1.filesProcessed =
      (((blockOutcomes ws (parseSearchReplaceBlocks content) fs).filter
        (fun o => o.1)).map (fun o => o.2)).toFinset.card) ∧
    ((blockOutcomes ws (parseSearchReplaceBlocks content) fs).length =
      (parseSearchReplaceBlocks content).length) ∧
    ((applySearchReplaceBlocks [] c3Ws c3Fs).1.success = false ∧
      (applySearchReplaceBlocks [] c3Ws c3Fs).1.blocksProcessed = 0) ∧
    ((applySearchReplaceBlocks c3TwoBlockInput c3Ws c3Fs).1.success = true ∧
      (applySearchReplaceBlocks c3TwoBlockInput c3Ws c3Fs).1.blocksProcessed = 1 ∧
      (applySearchReplaceBlocks c3TwoBlockInput c3Ws c3Fs).1.filesProcessed = 1 ∧
      (applySearchReplaceBlocks c3TwoBlockInput c3Ws c3Fs).1.errors.map
        (fun e => containsSub e (("file2.txt").data)) = [true]) := by
  refine ⟨?_, ?_, ?_, blockOutcomes_length ws _ fs, by decide, by decide⟩
  all_goals
    by_cases hempty : (parseSearchReplaceBlocks content).isEmpty = true
  · have hnil : parseSearchReplaceBlocks content = [] := List.isEmpty_iff.mp hempty
    simp only [applySearchReplaceBlocks, hempty, if_true, hnil, blockOutcomes]
    rfl
  · simp only [applySearchReplaceBlocks, hempty, Bool.false_eq_true, if_false]
    have h := processBlocks_spec ws (parseSearchReplaceBlocks content)
      { errors := [], warnings := [], processedFiles := [], successfulBlocks := 0, fs := fs }
    simpa using h.1
  · have hnil : parseSearchReplaceBlocks content = [] := List.isEmpty_iff.mp hempty
    simp only [applySearchReplaceBlocks, hempty, if_true, hnil, blockOutcomes]
    rfl
  · simp only [applySearchReplaceBlocks, hempty, Bool.false_eq_true, if_false]
    have h := processBlocks_spec ws (parseSearchReplaceBlocks content)
      { errors := [], warnings := [], processedFiles := [], successfulBlocks := 0, fs := fs }
    have h1 := h.1
    simp only at h1
    rw [h1]
    simp
  · have hnil : parseSearchReplaceBlocks content = [] := List.isEmpty_iff.mp hempty
    simp only [applySearchReplaceBlocks, hempty, if_true, hnil, blockOutcomes]
    rfl
  · simp only [applySearchReplaceBlocks, hempty, Bool.false_eq_true, if_false]
    have h := processBlocks_spec ws (parseSearchReplaceBlocks content)
      { errors := [], warnings := [], processedFiles := [], successfulBlocks := 0, fs := fs }
    have h2 := h.2
    simp only at h2
    rw [h2]
    exact length_foldl_insertUnique_nil _

/-!
## Claim C7
-/

/-- Drop the `MessageLine` records (e.g. `No newline at end of file`) from
every chunk. -/
def stripMessageLines : List DiffChunk → List DiffChunk :=
  List.map (fun ch =>
    match ch with
    | DiffChunk.chunk s cs =>
      DiffChunk.chunk s (cs.filter (fun c =>
        match c.kind with
        | LineChangeKind.messageLine => false
        | _ => true))
    | DiffChunk.combined => DiffChunk.combined)

theorem applyChanges_filter_messages (cs : List LineChange) :
    ∀ idx, applyChanges (cs.filter (fun c =>
        match c.kind with
        | LineChangeKind.messageLine => false
        | _ => true)) idx = applyChanges cs idx := by
  induction cs with
  | nil => intro idx; rfl
  | cons c rest ih =>
    intro idx
    cases hk : c.kind with
    | messageLine =>
      simp only [List.filter_cons, hk]
      simp only [applyChanges, hk]
      exact ih idx
    | unchangedLine =>
      simp only [List.filter_cons, hk]
      simp only [applyChanges, hk, ih]
    | addedLine =>
      simp only [List.filter_cons, hk]
      simp only [applyChanges, hk, ih]
    | deletedLine =>
      simp only [List.filter_cons, hk]
      simp only [applyChanges, hk, ih]

theorem runChunks_strip_messages (chunks : List DiffChunk) :
    ∀ (orig : List (List Char)) (idx : Nat),
      runChunks (stripMessageLines chunks) orig idx = runChunks chunks orig idx := by
  induction chunks with
  | nil => intro orig idx; rfl
  | cons ch rest ih =>
    intro orig idx
    cases ch with
    | chunk s cs =>
      simp only [stripMessageLines, List.map_cons]
      simp only [runChunks]
      rw [applyChanges_filter_messages]
      have := ih orig ((applyChanges cs (max idx (min (s - 1) orig.length))).2)
      simp only [stripMessageLines] at this
      rw [this]
    | combined =>
      simp only [stripMessageLines, List.map_cons]
      simp only [runChunks]
      have := ih orig idx
      simp only [stripMessageLines] at this
      rw [this]

def c7Orig : List Char := ("line 1\nline 2\nline 3\nline 4\nline 5\nline 6").data

def c7Chunks : List DiffChunk :=
  [DiffChunk.chunk 1
     [{ kind := LineChangeKind.deletedLine, content := ("line 1").data },
      { kind := LineChangeKind.addedLine, content := ("modified line 1").data },
      { kind := LineChangeKind.unchangedLine, content := ("line 2").data },
      { kind := LineChangeKind.unchangedLine, content := ("line 3").data }],
   DiffChunk.chunk 4
     [{ kind := LineChangeKind.unchangedLine, content := ("line 4").data },
      { kind := LineChangeKind.deletedLine, content := ("line 5").data },
      { kind := LineChangeKind.addedLine, content := ("modified line 5").data },
      { kind := LineChangeKind.messageLine,
        content := ("No newline at end of file").data }]]

/-- Claim C7: `buildFileContentFromChunks` walks the original lines in order
(anchored at each hunk's declared start), keeps unchanged lines, skips
deleted ones, inserts added ones, appends the lines after the last hunk, and
ignores `MessageLine` records entirely (proved for all inputs); on a concrete
two-hunk diff whose final hunk carries a `No newline at end of file` marker it
reproduces exactly the expected content, both through
`buildFileContentFromChunks` and through `handleChangedFile` on an existing
target file. -/
theorem c7_diff_reconstruction :
    (∀ (chunks : List DiffChunk) (orig : List Char),
      buildFileContentFromChunks (stripMessageLines chunks) orig =
        buildFileContentFromChunks chunks orig) ∧
    (∀ orig : List Char, buildFileContentFromChunks [] orig = orig) ∧
    (∀ (ws path chunks : _) (fs : FS) (cur : List Char),
      lookupFile fs (joinPath ws path) = some cur →
      handleChangedFile ws path chunks fs =
        ({ type := OpType.modify, path := path, pathBefore := none,
           content := some (buildFileContentFromChunks chunks cur),
           error := none }, fs)) ∧
    buildFileContentFromChunks c7Chunks c7Orig =
      ("modified line 1\nline 2\nline 3\nline 4\nmodified line 5\nline 6").data := by
  refine ⟨?_, fun orig => rfl, ?_, by decide⟩
  · intro chunks orig
    unfold buildFileContentFromChunks
    cases chunks with
    | nil => rfl
    | cons ch rest =>
      have hne : (stripMessageLines (ch :: rest)).isEmpty = false := by
        cases ch <;> rfl
      rw [hne]
      have hne2 : (ch :: rest : List DiffChunk).isEmpty = false := rfl
      rw [hne2]
      simp only [Bool.false_eq_true, if_false]
      rw [runChunks_strip_messages]
  · intro ws path chunks fs cur hlook
    have hex : existsPath fs (joinPath ws path) = true := by
      unfold existsPath
      rw [hlook]
      rfl
    unfold handleChangedFile
    simp only [hex, Bool.not_true, Bool.false_eq_true, if_false, hlook]
    rfl

def c7Fs : FS := { files := [(("ws/multihunk.txt").data, c7Orig)], dirs := [] }

theorem c7_diff_reconstruction_witness :
    handleChangedFile (("ws").data) (("multihunk.txt").data) c7Chunks c7Fs =
      ({ type := OpType.modify, path := ("multihunk.txt").data, pathBefore := none,
         content := some
           (("modified line 1\nline 2\nline 3\nline 4\nmodified line 5\nline 6").data),
         error := none }, c7Fs) := by
  have h := c7_diff_reconstruction
  have h3 := h.2.2.1 (("ws").data) (("multihunk.txt").data) c7Chunks c7Fs c7Orig
    (by decide)
  rw [h3, h.2.2.2]

/-!
## Claim C8
-/

def c8Entry : DiffFile :=
  DiffFile.addedFile (("sub/b.txt").data)
    [DiffChunk.chunk 1 [{ kind := LineChangeKind.addedLine, content := ("hello").data }]]

def c8Fs : FS := { files := [], dirs := [("ws").data] }

/-- Claim C8 is false as stated: resolving an `AddedFile` entry whose parent
directory is missing mutates the filesystem during the first phase (the
handler calls `mkdirSync` before any commit pass), even though the entry
resolves without error. -/
theorem c8_counterexample :
    (processAllFiles (("ws").data) [c8Entry] c8Fs).fs ≠ c8Fs ∧
    (processAllFiles (("ws").data) [c8Entry] c8Fs).fs.dirs =
      [("ws").data, ("ws/sub").data] ∧
    (processAllFiles (("ws").data) [c8Entry] c8Fs).ops.map (fun o => o.error) =
      [none] := by
  decide

/-- Claim C8, amended: the first phase resolves every entry into a
`FileOperation` record and never creates, modifies or deletes a file — file
contents are untouched (it may only create missing parent directories for
added/renamed entries, as the counterexample shows) — and the second pass
applies exactly the operations that carry no error. -/
theorem c8_two_phase_commit :
    (∀ (ws : List Char) (f : DiffFile) (fs : FS),
      (processFile ws f fs).2.files = fs.files) ∧
    (∀ (ws : List Char) (entries : List DiffFile) (fs : FS),
      (processAllFiles ws entries fs).fs.files = fs.files) ∧
    (∀ (ws : List Char) (ops : List FileOperation) (fs : FS),
      applyOperations ws ops fs =
        applyOperations ws (ops.filter (fun o => o.error.isNone)) fs) := by
  have h1 : ∀ (ws : List Char) (f : DiffFile) (fs : FS),
      (processFile ws f fs).2.files = fs.files := by
    intro ws f fs
    cases f with
    | addedFile p cks =>
      simp only [processFile, handleAddedFile]
      split
      · rfl
      · split <;> rfl
    | deletedFile p =>
      simp only [processFile, handleDeletedFile]
      split <;> rfl
    | renamedFile pb pa cks =>
      simp only [processFile, handleRenamedFile]
      split
      · rfl
      · split
        · rfl
        · split
          · split <;> rfl
          · split <;> rfl
    | changedFile p cks =>
      simp only [processFile, handleChangedFile]
      split <;> rfl
    | unknownFile t => rfl
  refine ⟨h1, ?_, ?_⟩
  · intro ws entries
    induction entries with
    | nil => intro fs; rfl
    | cons f rest ih =>
      intro fs
      simp only [processAllFiles]
      split
      · rw [ih, h1]
      · rw [ih, h1]
  · intro ws ops
    induction ops with
    | nil => intro fs; rfl
    | cons op rest ih =>
      intro fs
      cases hoe : op.error with
      | some e =>
        simp only [applyOperations, hoe, Option.isSome_some, if_true,
          List.filter_cons, Option.isNone_some]
        simp only [Bool.false_eq_true, if_false]
        exact ih fs
      | none =>
        simp only [applyOperations, hoe, Option.isSome_none, List.filter_cons,
          Option.isNone_none, if_true]
        simp only [Bool.false_eq_true, if_false, applyOperations, hoe,
          Option.isSome_none]
        exact ih _

/-!
## Claim C9
-/

def c9StaleInput : List Char :=
  ("a.txt\n```js\n<<<<<<< SEARCH\nx\n=======\ny\n>>>>>>> REPLACE\n```\nhello\n```js\n<<<<<<< SEARCH\np\n=======\nq\n>>>>>>> REPLACE\n```").data

set_option maxRecDepth 100000 in
set_option maxHeartbeats 2000000 in
/-- Claim C9 is false as stated: in an input whose first fence is preceded by
the path-like line `a.txt` and whose second fence is preceded only by the
non-path-like line `hello` (and opens directly with the search marker), the
parser does not discard the second fence: the candidate path is never reset
between fences, so the second block is emitted with the stale path `a.txt`. -/
theorem c9_counterexample :
    pathLike (trimWs (("hello").data)) = false ∧
    (parseSearchReplaceBlocks c9StaleInput).map (fun b => b.filePath) =
      [("a.txt").data, ("a.txt").data] ∧
    (parseSearchReplaceBlocks c9StaleInput).length ≠ 1 := by
  refine ⟨by decide, by decide, ?_⟩
  intro h
  have h2 : (parseSearchReplaceBlocks c9StaleInput).length = 2 := by decide
  rw [h2] at h
  cases h

/-- Claim C9, amended: a fence for which neither method yields a file path is
discarded — no `EditBlock` is emitted and no ordinal is consumed for it —
provided no earlier fence in the same input has established a candidate
external path (`currentFilePath` is still unset when the fence closes);
an input consisting only of such a fence yields no blocks at all.  When an
earlier fence did set a candidate path, that stale path is reused instead
(see the counterexample). -/
theorem c9_no_path_fence_discarded :
    (∀ (line : List Char) (rest prev : List (List Char)) (st : PState),
      fenceMarker.isPrefixOf line = true →
      st.inFence = true →
      st.currentFilePath = none →
      (st.fenceLines = [] ∨ (trimWs (st.fenceLines.headD [])).isEmpty = true ∨
        searchMarker.isPrefixOf (trimWs (st.fenceLines.headD [])) = true) →
      parseLoop (line :: rest) prev st =
        parseLoop rest (line :: prev) { st with inFence := false, fenceLines := [] }) ∧
    parseSearchReplaceBlocks
      (("hello\n```js\n<<<<<<< SEARCH\nx\n=======\ny\n>>>>>>> REPLACE\n```").data) = [] := by
  constructor
  · intro line rest prev st hfence hin hnopath hinner
    have hclose : closeFence st = { st with inFence := false, fenceLines := [] } := by
      cases hfl : st.fenceLines with
      | nil =>
        simp only [closeFence, hfl, hnopath]
      | cons l0 t =>
        rcases hinner with h | h | h
        · rw [hfl] at h
          cases h
        · rw [hfl] at h
          simp only [List.headD_cons] at h
          simp only [closeFence, hfl, hnopath, h, Bool.not_true, Bool.false_and,
            Bool.false_eq_true, if_false]
        · rw [hfl] at h
          simp only [List.headD_cons] at h
          simp only [closeFence, hfl, hnopath, h, Bool.not_true, Bool.and_false,
            Bool.false_eq_true, if_false]
    simp only [parseLoop, hfence, if_true, hin, hclose]
  · decide

def c9WitnessState : PState :=
  { currentFilePath := none, inFence := true,
    fenceLines := [("<<<<<<< SEARCH").data], fenceLanguage := ("js").data,
    blockIndex := 0, blocks := [] }

theorem c9_no_path_fence_discarded_witness :
    parseLoop [fenceMarker] [] c9WitnessState =
      { c9WitnessState with inFence := false, fenceLines := [] } := by
  have h := c9_no_path_fence_discarded.1 fenceMarker [] [] c9WitnessState
    (by decide) rfl rfl (Or.inr (Or.inr (by decide)))
  rw [h]
  rfl

/-!
## Claim C10
-/

theorem extractBlockContent_lineNumber {bc lang p : List Char} {bi : Nat}
    {b : SearchReplaceBlock} (h : extractBlockContent bc lang p bi = some b) :
    b.lineNumber = bi := by
  simp only [extractBlockContent] at h
  split at h
  · cases h
    rfl
  · cases h

theorem closeFence_cases (st : PState) :
    closeFence st = { st with inFence := false, fenceLines := [] } ∨
    ∃ blocks', closeFence st =
      { st with inFence := false, fenceLines := [], blockIndex := st.blockIndex + 1,
                blocks := blocks' } ∧
      (blocks' = st.blocks ∨
        ∃ nb, blocks' = st.blocks ++ [nb] ∧ nb.lineNumber = st.blockIndex + 1) := by
  simp only [closeFence]
  split
  · next p heq =>
    split
    · left
      rfl
    · right
      refine ⟨_, rfl, ?_⟩
      cases hex : extractBlockContent _ st.fenceLanguage p (st.blockIndex + 1) with
      | none =>
        left
        rfl
      | some nb =>
        right
        refine ⟨nb, rfl, extractBlockContent_lineNumber hex⟩
  · left
    rfl

theorem parseLoop_ordinal_invariant (lines : List (List Char)) :
    ∀ (prev : List (List Char)) (st : PState),
      (∀ b ∈ st.blocks, 1 ≤ b.lineNumber ∧ b.lineNumber ≤ st.blockIndex) →
      ((st.blocks.map (fun b => b.lineNumber)).Pairwise (· < ·)) →
      ((∀ b ∈ (parseLoop lines prev st).blocks,
          1 ≤ b.lineNumber ∧ b.lineNumber ≤ (parseLoop lines prev st).blockIndex) ∧
        (((parseLoop lines prev st).blocks.map (fun b => b.lineNumber)).Pairwise
          (· < ·))) := by
  induction lines with
  | nil =>
    intro prev st hbound hpw
    exact ⟨hbound, hpw⟩
  | cons line rest ih =>
    intro prev st hbound hpw
    simp only [parseLoop]
    by_cases hfence : fenceMarker.isPrefixOf line = true
    · rw [if_pos hfence]
      by_cases hin : st.inFence = true
      · rw [if_pos hin]
        rcases closeFence_cases st with hc | ⟨blocks', hc, hb⟩
        · apply ih
          · rw [hc]
            exact hbound
          · rw [hc]
            exact hpw
        · apply ih
          · rw [hc]
            rcases hb with hb | ⟨nb, hb, hnb⟩
            · rw [hb]
              intro b hmem
              have := hbound b hmem
              simp only
              omega
            · rw [hb]
              intro b hmem
              simp only
              rcases List.mem_append.mp hmem with hmem | hmem
              · have := hbound b hmem
                omega
              · rw [List.mem_singleton] at hmem
                subst hmem
                omega
          · rw [hc]
            simp only
            rcases hb with hb | ⟨nb, hb, hnb⟩
            · rw [hb]
              exact hpw
            · rw [hb, List.map_append, List.pairwise_append]
              refine ⟨hpw, by simp, ?_⟩
              intro a ha b' hb'
              simp only [List.map_singleton, List.mem_singleton] at hb'
              subst hb'
              simp only [List.mem_map] at ha
              obtain ⟨bb, hbb, rfl⟩ := ha
              have h1 := (hbound bb hbb).2
              omega
      · rw [if_neg hin]
        exact ih _ _ hbound hpw
    · rw [if_neg hfence]
      by_cases hin : st.inFence = true
      · rw [if_pos hin]
        exact ih _ _ hbound hpw
      · rw [if_neg hin]
        exact ih _ _ hbound hpw


theorem getD_ge_of_sorted (l : List Nat) :
    ∀ m, l.Pairwise (· < ·) → (∀ x ∈ l, m ≤ x) →
      ∀ i, i < l.length → m + i ≤ l.getD i 0 := by
  induction l with
  | nil =>
    intro m _ _ i hi
    simp at hi
  | cons a t ih =>
    intro m hp hm i hi
    rcases List.pairwise_cons.mp hp with ⟨ha, hp'⟩
    cases i with
    | zero =>
      simpa using hm a (List.mem_cons_self a t)
    | succ k =>
      have hstep := ih (a + 1) hp' (fun x hx => ha x hx) k (by simpa using hi)
      have hma : m ≤ a := hm a (List.mem_cons_self a t)
      simp only [List.getD_cons_succ]
      omega

def c10Input : List Char :=
  ("a.txt\n```js\n<<<<<<< SEARCH\nx\n=======\ny\n>>>>>>> REPLACE\n```\nb.txt\n```js\nzzz\n```\nc.txt\n```js\n<<<<<<< SEARCH\np\n=======\nq\n>>>>>>> REPLACE\n```").data

set_option maxRecDepth 100000 in
set_option maxHeartbeats 2000000 in
/-- Claim C10 is false as stated: in an input with three fences — the second
of which carries a file path (`b.txt`) but no SEARCH/REPLACE markers — two
blocks are extracted, and the second extracted block carries ordinal 3, not
its 1-based position 2: the counter is incremented before marker extraction,
so the marker-less fence consumed an ordinal. -/
theorem c10_counterexample :
    (parseSearchReplaceBlocks c10Input).map (fun b => (b.filePath, b.lineNumber)) =
      [((("a.txt").data : List Char), 1), ((("c.txt").data : List Char), 3)] ∧
    (parseSearchReplaceBlocks c10Input).length = 2 ∧
    ((3 : Nat) ≠ 2) := by
  refine ⟨by decide, by decide, by decide⟩

/-- Claim C10, amended: the parser increments the ordinal counter for every
fence for which a file path was determined, whether or not marker extraction
succeeds; consequently the `lineNumber` ordinals of the extracted blocks are
strictly increasing and each is at least — and, when a path-bearing fence
lacks markers, strictly greater than — its 1-based position among the
extracted blocks. -/
theorem c10_ordinals (content : List Char) :
    (((parseSearchReplaceBlocks content).map (fun b => b.lineNumber)).Pairwise
      (· < ·)) ∧
    (∀ i, i < (parseSearchReplaceBlocks content).length →
      i + 1 ≤ ((parseSearchReplaceBlocks content).map (fun b => b.lineNumber)).getD i 0) := by
  have hmain : (∀ b ∈ parseSearchReplaceBlocks content, 1 ≤ b.lineNumber) ∧
      (((parseSearchReplaceBlocks content).map (fun b => b.lineNumber)).Pairwise
        (· < ·)) := by
    unfold parseSearchReplaceBlocks
    split
    · refine ⟨?_, by simp⟩
      intro b hb
      cases hb
    · have h := parseLoop_ordinal_invariant
        (splitOnSep '\n' (xmlNarrow content)) [] initialPState
        (by intro b hb; cases hb) (by simp [initialPState])
      exact ⟨fun b hb => (h.1 b hb).1, h.2⟩
  refine ⟨hmain.2, ?_⟩
  intro i hi
  have hlen : i < ((parseSearchReplaceBlocks content).map
      (fun b => b.lineNumber)).length := by
    simpa using hi
  have := getD_ge_of_sorted
    ((parseSearchReplaceBlocks content).map (fun b => b.lineNumber)) 1 hmain.2
    (by
      intro x hx
      simp only [List.mem_map] at hx
      obtain ⟨b, hb, rfl⟩ := hx
      exact hmain.1 b hb) i hlen
  omega

set_option maxRecDepth 100000 in
set_option maxHeartbeats 2000000 in
theorem c10_ordinals_witness :
    (((parseSearchReplaceBlocks c10Input).map (fun b => b.lineNumber)).Pairwise
      (· < ·)) ∧
    1 + 1 ≤ ((parseSearchReplaceBlocks c10Input).map (fun b => b.lineNumber)).getD 1 0 := by
  have h := c10_ordinals c10Input
  exact ⟨h.1, h.2 1 (by decide)⟩
